import Mathlib

/-!
Verification of the heightfield-terrain repository.

The development shallowly embeds the terrain / heightmap / character
controller code in Lean:

* `src/utils/terrain.js` (`TerrainBuilder`): grid height lookup with
  clamping, bilinear world-space height query, mesh construction
  (positions, triangle indices, accumulated vertex normals) and the
  collision-heightfield export (transposition into column-major order).
* `src/utils/heightmap.js`: the procedural heightmap generator
  (smoothstep-blended lattice noise, fractal octaves, global rescale).
* `src/utils/controller.js` (`FPSController.update`): the pure part of the
  per-frame integrator (cooldown bookkeeping, horizontal movement intent,
  gravity / jump velocity update).

JavaScript numbers are modelled as exact rationals (`ℚ`) where the code is
pure arithmetic, and as reals (`ℝ`) where transcendental functions
(`Math.sin`, `Math.cos`, square roots from vector normalisation) appear.
-/

/- ### Terrain model (`src/utils/terrain.js`) -/

/-- The fields stored by the `TerrainBuilder` constructor: the row-major
height grid, its resolution `size`, and the world-scaling parameters. -/
structure TerrainBuilder where
  heights : List ℚ
  size : ℕ
  worldSize : ℚ
  heightScale : ℚ
  heightOffset : ℚ
deriving Repr, DecidableEq

namespace TerrainBuilder

/-- `this.cols = size - 1` from the constructor. -/
def cols (tb : TerrainBuilder) : ℤ := (tb.size : ℤ) - 1

/-- `this.cellSize = worldSize / (size - 1)` from the constructor. -/
def cellSize (tb : TerrainBuilder) : ℚ := tb.worldSize / ((tb.size : ℚ) - 1)

end TerrainBuilder

/-- The `TerrainBuilder` constructor.  Its JavaScript body only assigns the
incoming fields and computes the derived `cols` / `cellSize`; it contains no
validation and no operation that can throw.  It is embedded in `Except` so
that "aborts construction with an error" is a statable outcome; since no
statement of the body can fail, the embedding always returns `.ok`. -/
def mkTerrainBuilder (heights : List ℚ) (size : ℕ)
    (worldSize heightScale heightOffset : ℚ) : Except String TerrainBuilder :=
  .ok { heights := heights, size := size, worldSize := worldSize
        heightScale := heightScale, heightOffset := heightOffset }

namespace TerrainBuilder

/-- The clamping applied by `getHeight` to each index:
`Math.max(0, Math.min(size - 1, i))`. -/
def clampIndex (tb : TerrainBuilder) (i : ℤ) : ℤ :=
  max 0 (min ((tb.size : ℤ) - 1) i)

/-- `getHeight(row, col)`: clamp `row` and `col` into `[0, size-1]` and read
`heights[row*size+col] * heightScale + heightOffset`. -/
def getHeight (tb : TerrainBuilder) (row col : ℤ) : ℚ :=
  let r := tb.clampIndex row
  let c := tb.clampIndex col
  tb.heights.getD (r * tb.size + c).toNat 0 * tb.heightScale + tb.heightOffset

/-- `getHeightAtWorld(x, z)`: convert world coordinates to fractional grid
coordinates, take the four surrounding (clamped) grid heights and blend them
bilinearly. -/
def getHeightAtWorld (tb : TerrainBuilder) (x z : ℚ) : ℚ :=
  let gx := (x + tb.worldSize / 2) / tb.cellSize
  let gz := (z + tb.worldSize / 2) / tb.cellSize
  let col0 := ⌊gx⌋
  let row0 := ⌊gz⌋
  let col1 := col0 + 1
  let row1 := row0 + 1
  let fx := gx - col0
  let fz := gz - row0
  let h00 := tb.getHeight row0 col0
  let h10 := tb.getHeight row0 col1
  let h01 := tb.getHeight row1 col0
  let h11 := tb.getHeight row1 col1
  h00 * (1 - fx) * (1 - fz)
    + h10 * fx * (1 - fz)
    + h01 * (1 - fx) * fz
    + h11 * fx * fz

/-- The heights array built by `buildRapierHeightfield`: starting from a
zero-filled array of `size * size` entries, the nested `row` / `col` loops
write `heights[row*size+col]` into slot `col*size+row`. -/
def rapierHeights (tb : TerrainBuilder) : List ℚ :=
  (List.range tb.size).foldl
    (fun acc row =>
      (List.range tb.size).foldl
        (fun acc2 col =>
          acc2.set (col * tb.size + row) (tb.heights.getD (row * tb.size + col) 0))
        acc)
    (List.replicate (tb.size * tb.size) 0)

/-- The full result of `buildRapierHeightfield`: `nrows = ncols = size - 1`,
the re-ordered heights array, and the scale triple
`(worldSize, heightScale, worldSize)`. -/
def buildRapierHeightfield (tb : TerrainBuilder) :
    ℤ × ℤ × List ℚ × (ℚ × ℚ × ℚ) :=
  ((tb.size : ℤ) - 1, (tb.size : ℤ) - 1, tb.rapierHeights,
    (tb.worldSize, tb.heightScale, tb.worldSize))

end TerrainBuilder

example :
    (TerrainBuilder.mk [0, 1, 2, 3] 2 4 10 0).rapierHeights = [0, 2, 1, 3] := by
  decide

example : (TerrainBuilder.mk [0, 1, 2, 3] 2 4 10 0).getHeight (-5) 1 = 10 := by
  norm_num [TerrainBuilder.getHeight, TerrainBuilder.clampIndex]

/- ### Generic lemmas about scatter-writes folded over `List.range` -/

/-- Folding index-writes over `List.range` preserves the array length. -/
lemma foldl_set_length (g : ℕ → ℕ) (f : ℕ → ℚ) (acc : List ℚ) (m : ℕ) :
    ((List.range m).foldl (fun a c => a.set (g c) (f c)) acc).length =
      acc.length := by
  induction m with
  | zero => rfl
  | succ m ih =>
      rw [List.range_succ, List.foldl_append, List.foldl_cons, List.foldl_nil,
        List.length_set, ih]

/-- If no write of the fold touches slot `j`, slot `j` keeps its old value. -/
lemma foldl_set_getD_notin (g : ℕ → ℕ) (f : ℕ → ℚ) (acc : List ℚ) (m j : ℕ)
    (hno : ∀ c < m, g c ≠ j) :
    ((List.range m).foldl (fun a c => a.set (g c) (f c)) acc).getD j 0 =
      acc.getD j 0 := by
  induction m with
  | zero => rfl
  | succ m ih =>
      rw [List.range_succ, List.foldl_append, List.foldl_cons, List.foldl_nil]
      simp only [List.getD, List.get?_eq_getElem?]
      rw [List.getElem?_set_ne (hno m (Nat.lt_succ_self m))]
      have := ih fun c hc => hno c (Nat.lt_succ_of_lt hc)
      simpa [List.getD, List.get?_eq_getElem?] using this

/-- If the write map `g` is injective on `[0, m)` and some `c₀ < m` writes to
slot `j`, the fold leaves `f c₀` in slot `j`. -/
lemma foldl_set_getD_hit (g : ℕ → ℕ) (f : ℕ → ℚ) (acc : List ℚ) (m j c₀ : ℕ)
    (hc₀ : c₀ < m) (hg : g c₀ = j) (hlt : j < acc.length)
    (hinj : ∀ c₁ < m, ∀ c₂ < m, g c₁ = g c₂ → c₁ = c₂) :
    ((List.range m).foldl (fun a c => a.set (g c) (f c)) acc).getD j 0 =
      f c₀ := by
  induction m with
  | zero => omega
  | succ m ih =>
      rw [List.range_succ, List.foldl_append, List.foldl_cons, List.foldl_nil]
      rcases Nat.lt_succ_iff_lt_or_eq.1 hc₀ with h | rfl
      · have hne : g m ≠ j := fun he => by
          have := hinj m (Nat.lt_succ_self m) c₀ (Nat.lt_succ_of_lt h) (he.trans hg.symm)
          omega
        simp only [List.getD, List.get?_eq_getElem?]
        rw [List.getElem?_set_ne hne]
        have := ih h fun c₁ h₁ c₂ h₂ =>
          hinj c₁ (Nat.lt_succ_of_lt h₁) c₂ (Nat.lt_succ_of_lt h₂)
        simpa [List.getD, List.get?_eq_getElem?] using this
      · simp only [List.getD, List.get?_eq_getElem?, ← hg]
        rw [List.getElem?_set_eq_of_lt]
        · rfl
        · rw [foldl_set_length, hg]
          exact hlt

namespace TerrainBuilder

/-- Length of the partial outer fold of `rapierHeights`. -/
lemma rapierHeights_outer_length (tb : TerrainBuilder) (m : ℕ) :
    ((List.range m).foldl
      (fun acc row =>
        (List.range tb.size).foldl
          (fun acc2 col =>
            acc2.set (col * tb.size + row) (tb.heights.getD (row * tb.size + col) 0))
          acc)
      (List.replicate (tb.size * tb.size) 0)).length = tb.size * tb.size := by
  induction m with
  | zero => simp
  | succ m ih =>
      rw [List.range_succ, List.foldl_append, List.foldl_cons, List.foldl_nil,
        foldl_set_length, ih]

/-- The exported heights array has `size * size` entries. -/
lemma rapierHeights_length (tb : TerrainBuilder) :
    tb.rapierHeights.length = tb.size * tb.size :=
  tb.rapierHeights_outer_length tb.size

/-- Value of slot `j` after the partial outer fold of `rapierHeights`: rows
`0 .. m-1` have been scattered, so slot `j` holds the transposed input value
if its row `j % size` has been processed, and the initial `0` otherwise. -/
lemma rapierHeights_outer_getD (tb : TerrainBuilder) (m j : ℕ)
    (hm : m ≤ tb.size) (hj : j < tb.size * tb.size) :
    ((List.range m).foldl
      (fun acc row =>
        (List.range tb.size).foldl
          (fun acc2 col =>
            acc2.set (col * tb.size + row) (tb.heights.getD (row * tb.size + col) 0))
          acc)
      (List.replicate (tb.size * tb.size) 0)).getD j 0 =
      if j % tb.size < m
        then tb.heights.getD ((j % tb.size) * tb.size + j / tb.size) 0
        else 0 := by
  have hn : 0 < tb.size := by
    rcases Nat.eq_zero_or_pos tb.size with h | h
    · rw [h] at hj; omega
    · exact h
  revert hm
  induction m with
  | zero =>
      intro _
      simp only [List.range_zero, List.foldl_nil, Nat.not_lt_zero, if_false]
      simp only [List.getD, List.get?_eq_getElem?]
      rw [List.getElem?_eq_getElem (by simpa using hj), List.getElem_replicate]
      rfl
  | succ m ih =>
      intro hm
      rw [List.range_succ, List.foldl_append, List.foldl_cons, List.foldl_nil]
      have hmn : m < tb.size := hm
      have hdiv : j / tb.size < tb.size := Nat.div_lt_of_lt_mul hj
      have hmod : j % tb.size < tb.size := Nat.mod_lt _ hn
      have hdm := Nat.div_add_mod j tb.size
      by_cases hrow : j % tb.size = m
      · rw [foldl_set_getD_hit (fun c => c * tb.size + m) _ _ tb.size j
          (j / tb.size)
          hdiv
          (by
            simp only []
            rw [← hrow, Nat.mul_comm]
            exact hdm)
          (by rw [rapierHeights_outer_length]; exact hj)
          (fun c₁ h₁ c₂ h₂ he => by
            have h3 : c₁ * tb.size = c₂ * tb.size := Nat.add_right_cancel he
            exact Nat.eq_of_mul_eq_mul_right hn h3)]
        rw [hrow, if_pos (Nat.lt_succ_self m)]
      · rw [foldl_set_getD_notin (fun c => c * tb.size + m) _ _ tb.size j
          (fun c hc he => by
            have h4 : (c * tb.size + m) % tb.size = m := by
              rw [Nat.add_comm, Nat.add_mul_mod_self_right, Nat.mod_eq_of_lt hmn]
            have he' : c * tb.size + m = j := he
            rw [he'] at h4
            exact hrow h4)]
        rw [ih (Nat.le_of_lt hmn)]
        have h5 : (j % tb.size < m + 1) ↔ (j % tb.size < m) := by omega
        rw [if_congr h5 rfl rfl]

end TerrainBuilder

namespace TerrainBuilder

/-- Pointwise description of the exported heights array. -/
lemma rapierHeights_getD (tb : TerrainBuilder) (j : ℕ)
    (hj : j < tb.size * tb.size) :
    tb.rapierHeights.getD j 0 =
      tb.heights.getD ((j % tb.size) * tb.size + j / tb.size) 0 := by
  have hn : 0 < tb.size := by
    rcases Nat.eq_zero_or_pos tb.size with h | h
    · rw [h] at hj; omega
    · exact h
  have := tb.rapierHeights_outer_getD tb.size j le_rfl hj
  rw [rapierHeights, this, if_pos (Nat.mod_lt _ hn)]

end TerrainBuilder

/-- C1.  For a size-`N` row-major height grid (`N ≥ 2`), the collision
heightfield exporter returns `nrows = ncols = N - 1`, the scale triple
`(worldSize, heightScale, worldSize)`, an output array of
`(nrows+1) * (ncols+1)` entries, and for all `row, col < N` the output slot
`col*N + row` holds the input value at `row*N + col` (exact transposition). -/
theorem rapier_export_spec (tb : TerrainBuilder) (hN : 2 ≤ tb.size)
    (row col : ℕ) (hr : row < tb.size) (hc : col < tb.size) :
    tb.buildRapierHeightfield.1 = (tb.size : ℤ) - 1 ∧
    tb.buildRapierHeightfield.2.1 = (tb.size : ℤ) - 1 ∧
    tb.buildRapierHeightfield.2.2.2 = (tb.worldSize, tb.heightScale, tb.worldSize) ∧
    (tb.buildRapierHeightfield.2.2.1.length : ℤ) =
      (tb.buildRapierHeightfield.1 + 1) * (tb.buildRapierHeightfield.2.1 + 1) ∧
    tb.buildRapierHeightfield.2.2.1.getD (col * tb.size + row) 0 =
      tb.heights.getD (row * tb.size + col) 0 := by
  refine ⟨rfl, rfl, rfl, ?_, ?_⟩
  · show ((tb.rapierHeights.length : ℕ) : ℤ) = _
    rw [tb.rapierHeights_length]
    simp only [TerrainBuilder.buildRapierHeightfield]
    push_cast
    ring
  · show tb.rapierHeights.getD (col * tb.size + row) 0 = _
    have hj : col * tb.size + row < tb.size * tb.size := by
      have : col * tb.size + row < (col + 1) * tb.size := by
        rw [Nat.succ_mul]; omega
      calc col * tb.size + row < (col + 1) * tb.size := this
        _ ≤ tb.size * tb.size := Nat.mul_le_mul_right _ hc
    rw [tb.rapierHeights_getD _ hj]
    have hmod : (col * tb.size + row) % tb.size = row := by
      rw [Nat.add_comm, Nat.add_mul_mod_self_right, Nat.mod_eq_of_lt hr]
    have hdiv : (col * tb.size + row) / tb.size = col := by
      rw [Nat.add_comm, Nat.add_mul_div_right _ _ (by omega : 0 < tb.size),
        Nat.div_eq_of_lt hr]
      omega
    rw [hmod, hdiv]

/-- Witness for C1 at a concrete grid: `N = 2`, heights `[0,1,2,3]`,
`worldSize = 4`, `heightScale = 10`, checking slot `(row,col) = (0,1)`. -/
theorem rapier_export_spec_witness :
    2 ≤ (TerrainBuilder.mk [0, 1, 2, 3] 2 4 10 0).size ∧
    (TerrainBuilder.mk [0, 1, 2, 3] 2 4 10 0).buildRapierHeightfield.2.2.1.getD
        (1 * 2 + 0) 0 =
      (TerrainBuilder.mk [0, 1, 2, 3] 2 4 10 0).heights.getD (0 * 2 + 1) 0 :=
  ⟨by decide,
    (rapier_export_spec (TerrainBuilder.mk [0, 1, 2, 3] 2 4 10 0) (by decide)
      0 1 (by decide) (by decide)).2.2.2.2⟩

namespace TerrainBuilder

/-- Clamping into `[0, size-1]` is idempotent once `size ≥ 1`. -/
lemma clampIndex_idem (tb : TerrainBuilder) (h1 : 1 ≤ tb.size) (i : ℤ) :
    tb.clampIndex (tb.clampIndex i) = tb.clampIndex i := by
  have : (1 : ℤ) ≤ (tb.size : ℤ) := by exact_mod_cast h1
  unfold clampIndex
  omega

end TerrainBuilder

/-- C2.  For every terrain model with `size ≥ 2` and arbitrary integer
indices `row`, `col` (in range or not), `getHeight` is total: it returns the
clamped indices' sample scaled by `heightScale` plus `heightOffset`, the
clamped indices lie in `[0, size-1]`, and the lookup agrees with `getHeight`
applied to the already-clamped indices. -/
theorem getHeight_clamp_law (tb : TerrainBuilder) (hN : 2 ≤ tb.size)
    (row col : ℤ) :
    (0 ≤ tb.clampIndex row ∧ tb.clampIndex row ≤ (tb.size : ℤ) - 1 ∧
      0 ≤ tb.clampIndex col ∧ tb.clampIndex col ≤ (tb.size : ℤ) - 1) ∧
    tb.getHeight row col = tb.getHeight (tb.clampIndex row) (tb.clampIndex col) ∧
    tb.getHeight row col =
      tb.heights.getD (tb.clampIndex row * tb.size + tb.clampIndex col).toNat 0
        * tb.heightScale + tb.heightOffset := by
  have h1 : 1 ≤ tb.size := by omega
  have h2 : (2 : ℤ) ≤ (tb.size : ℤ) := by exact_mod_cast hN
  refine ⟨?_, ?_, rfl⟩
  · unfold TerrainBuilder.clampIndex
    omega
  · simp only [TerrainBuilder.getHeight, tb.clampIndex_idem h1]

/-- Witness for C2: the concrete 2×2 grid, queried at the out-of-range
indices `(-5, 7)`. -/
theorem getHeight_clamp_law_witness :
    2 ≤ (TerrainBuilder.mk [0, 1, 2, 3] 2 4 10 0).size ∧
    ((TerrainBuilder.mk [0, 1, 2, 3] 2 4 10 0).getHeight (-5) 7 =
      (TerrainBuilder.mk [0, 1, 2, 3] 2 4 10 0).getHeight
        ((TerrainBuilder.mk [0, 1, 2, 3] 2 4 10 0).clampIndex (-5))
        ((TerrainBuilder.mk [0, 1, 2, 3] 2 4 10 0).clampIndex 7)) :=
  ⟨by decide,
    (getHeight_clamp_law (TerrainBuilder.mk [0, 1, 2, 3] 2 4 10 0)
      (by decide) (-5) 7).2.1⟩

/-- C3.  At the exact world position of grid vertex `(row, col)` — that is,
`x = col*cellSize - worldSize/2`, `z = row*cellSize - worldSize/2` — the
bilinear `getHeightAtWorld` collapses to the exact grid sample
`getHeight row col` (here over exact rationals, hence with zero error). -/
theorem worldHeight_at_vertex (tb : TerrainBuilder) (hN : 2 ≤ tb.size)
    (hws : 0 < tb.worldSize) (row col : ℤ)
    (hr0 : 0 ≤ row) (hr1 : row ≤ (tb.size : ℤ) - 1)
    (hc0 : 0 ≤ col) (hc1 : col ≤ (tb.size : ℤ) - 1) :
    tb.getHeightAtWorld ((col : ℚ) * tb.cellSize - tb.worldSize / 2)
      ((row : ℚ) * tb.cellSize - tb.worldSize / 2) = tb.getHeight row col := by
  have hsz : (2 : ℚ) ≤ (tb.size : ℚ) := by exact_mod_cast hN
  have hcs : 0 < tb.cellSize := by
    unfold TerrainBuilder.cellSize
    exact div_pos hws (by linarith)
  have hne : tb.cellSize ≠ 0 := ne_of_gt hcs
  have hgx : ((col : ℚ) * tb.cellSize - tb.worldSize / 2 + tb.worldSize / 2)
      / tb.cellSize = (col : ℚ) := by
    field_simp
  have hgz : ((row : ℚ) * tb.cellSize - tb.worldSize / 2 + tb.worldSize / 2)
      / tb.cellSize = (row : ℚ) := by
    field_simp
  simp only [TerrainBuilder.getHeightAtWorld, hgx, hgz, Int.floor_intCast]
  ring_nf

/-- Witness for C3: the 2×2 grid with `worldSize = 4`, at vertex `(1, 0)`. -/
theorem worldHeight_at_vertex_witness :
    (2 ≤ (TerrainBuilder.mk [0, 1, 2, 3] 2 4 10 0).size ∧
      0 < (TerrainBuilder.mk [0, 1, 2, 3] 2 4 10 0).worldSize) ∧
    (TerrainBuilder.mk [0, 1, 2, 3] 2 4 10 0).getHeightAtWorld
        ((0 : ℚ) * (TerrainBuilder.mk [0, 1, 2, 3] 2 4 10 0).cellSize
          - (TerrainBuilder.mk [0, 1, 2, 3] 2 4 10 0).worldSize / 2)
        ((1 : ℚ) * (TerrainBuilder.mk [0, 1, 2, 3] 2 4 10 0).cellSize
          - (TerrainBuilder.mk [0, 1, 2, 3] 2 4 10 0).worldSize / 2) =
      (TerrainBuilder.mk [0, 1, 2, 3] 2 4 10 0).getHeight 1 0 :=
  ⟨⟨by decide, by norm_num⟩,
    worldHeight_at_vertex (TerrainBuilder.mk [0, 1, 2, 3] 2 4 10 0)
      (by decide) (by norm_num) 1 0
      (by decide) (by decide) (by decide) (by decide)⟩

/- ### Procedural heightmap (`src/utils/heightmap.js`) -/

/-- `smoothNoise(x, y)` from `generateProceduralHeightmap`, parametrised by
the corner-hash function `nf`.  In the source, `nf` is
`noise(x, y) = frac(sin(x*127.1 + y*311.7) * 43758.5453123)`, a transcendental
float expression; it is kept abstract here (the spec explicitly treats the
hash as implementation-defined) while the blend structure is embedded
verbatim.  Note the returned expression is the FIRST `return` of the source
(including its `+ (b - a) * (1 - uy) * 0` leftover term); the "Proper
bilinear" expression on the following line is dead code. -/
def smoothNoiseWith (nf : ℤ → ℤ → ℚ) (x y : ℚ) : ℚ :=
  let ix := ⌊x⌋
  let iy := ⌊y⌋
  let fx := x - ix
  let fy := y - iy
  let ux := fx * fx * (3 - 2 * fx)
  let uy := fy * fy * (3 - 2 * fy)
  let a := nf ix iy
  let b := nf (ix + 1) iy
  let c := nf ix (iy + 1)
  let d := nf (ix + 1) (iy + 1)
  a + (b - a) * ux + (c - a) * uy + (d - a) * ux * uy + (b - a) * (1 - uy) * 0

/-- The unreachable "Proper bilinear" expression that follows the `return`
in `smoothNoise`: the conventional smoothstep-weighted bilinear blend of the
four corner hashes, which the spec designates as the intended behaviour. -/
def properBilinearWith (nf : ℤ → ℤ → ℚ) (x y : ℚ) : ℚ :=
  let ix := ⌊x⌋
  let iy := ⌊y⌋
  let fx := x - ix
  let fy := y - iy
  let ux := fx * fx * (3 - 2 * fx)
  let uy := fy * fy * (3 - 2 * fy)
  let a := nf ix iy
  let b := nf (ix + 1) iy
  let c := nf ix (iy + 1)
  let d := nf (ix + 1) (iy + 1)
  a * (1 - ux) * (1 - uy) + b * ux * (1 - uy) + c * (1 - ux) * uy + d * ux * uy

/-- `fractalNoise(x, y, octaves = 6)`: accumulate `octaves` octaves of
`smoothNoise`, halving the amplitude and multiplying the frequency by `2.1`
each octave, then divide by the accumulated amplitude.  The fold state is
`(value, amplitude, frequency, maxValue)`. -/
def fractalNoise (nf : ℤ → ℤ → ℚ) (x y : ℚ) (octaves : ℕ := 6) : ℚ :=
  let st := (List.range octaves).foldl
    (fun (st : ℚ × ℚ × ℚ × ℚ) _ =>
      let value := st.1
      let amplitude := st.2.1
      let frequency := st.2.2.1
      let maxValue := st.2.2.2
      (value + smoothNoiseWith nf (x * frequency) (y * frequency) * amplitude,
        amplitude * (1 / 2), frequency * (21 / 10), maxValue + amplitude))
    (0, 1, 1, 0)
  st.1 / st.2.2.2

/-- The pre-normalisation height grid of `generateProceduralHeightmap`:
entry `row*size + col` is `fractalNoise(col/size*4, row/size*4)`. -/
def rawHeights (nf : ℤ → ℤ → ℚ) (size : ℕ) : List ℚ :=
  (List.range (size * size)).map fun i =>
    fractalNoise nf (((i % size : ℕ) : ℚ) / (size : ℚ) * 4)
      (((i / size : ℕ) : ℚ) / (size : ℚ) * 4)

/-- The running minimum computed by the generator's `if (h < minH)` scan.
The source starts from `Infinity`, so on the non-empty grids it produces this
equals the least element; the empty case (size 0) is given the placeholder
value 0. -/
def listMin : List ℚ → ℚ
  | [] => 0
  | h :: t => t.foldl min h

/-- The running maximum computed by the generator's `if (h > maxH)` scan. -/
def listMax : List ℚ → ℚ
  | [] => 0
  | h :: t => t.foldl max h

/-- `generateProceduralHeightmap(size)` (heights array only): generate the
fractal-noise grid, then rescale every entry by
`(h - minH) / (maxH - minH)`. -/
def generateProceduralHeightmap (nf : ℤ → ℤ → ℚ) (size : ℕ) : List ℚ :=
  let raw := rawHeights nf size
  let minH := listMin raw
  let maxH := listMax raw
  raw.map fun h => (h - minH) / (maxH - minH)

/-- A concrete corner hash: value 1 at lattice point `(1, 0)`, 0 elsewhere.
Used to exhibit the divergence between the returned blend and the
conventional bilinear blend. -/
def hashCex : ℤ → ℤ → ℚ := fun i j => if i = 1 ∧ j = 0 then 1 else 0

/-- C4.  At `(x, y) = (1/2, 1/2)` with corner hashes `a = 0`, `b = 1`,
`c = 0`, `d = 0` (so `ux = uy = 1/2`), the expression `smoothNoise` actually
returns evaluates to `1/2`, while the conventional smoothstep-weighted
bilinear blend — the dead "Proper bilinear" line that the claim describes —
evaluates to `1/4`.  The code therefore does not return the conventional
blend. -/
theorem smoothNoise_ne_properBilinear :
    smoothNoiseWith hashCex (1/2) (1/2) = 1/2 ∧
    properBilinearWith hashCex (1/2) (1/2) = 1/4 ∧
    smoothNoiseWith hashCex (1/2) (1/2) ≠ properBilinearWith hashCex (1/2) (1/2) := by
  have hfl : ⌊(1/2 : ℚ)⌋ = 0 := by norm_num
  refine ⟨?_, ?_, ?_⟩ <;>
    norm_num [smoothNoiseWith, properBilinearWith, hashCex, hfl]

/- ### Properties of the running min / max scans -/

lemma foldl_min_le_init (t : List ℚ) (h : ℚ) : t.foldl min h ≤ h := by
  induction t generalizing h with
  | nil => exact le_refl h
  | cons a t ih => exact le_trans (ih (min h a)) (min_le_left h a)

lemma foldl_min_le_mem (t : List ℚ) (x : ℚ) :
    ∀ h : ℚ, x ∈ t → t.foldl min h ≤ x := by
  induction t with
  | nil => intro h hx; cases hx
  | cons a t ih =>
      intro h hx
      rcases List.mem_cons.1 hx with rfl | hx'
      · exact le_trans (foldl_min_le_init t (min h x)) (min_le_right h x)
      · exact ih (min h a) hx'

lemma foldl_min_mem (t : List ℚ) (h : ℚ) : t.foldl min h ∈ h :: t := by
  induction t generalizing h with
  | nil => exact List.mem_singleton.2 rfl
  | cons a t ih =>
      rw [List.foldl_cons]
      have hmem := ih (min h a)
      rcases List.mem_cons.1 hmem with he | ht
      · rcases min_choice h a with hc | hc
        · rw [he, hc]; exact List.mem_cons_self _ _
        · rw [he, hc]; exact List.mem_cons_of_mem _ (List.mem_cons_self _ _)
      · exact List.mem_cons_of_mem _ (List.mem_cons_of_mem _ ht)

lemma foldl_max_init_le (t : List ℚ) (h : ℚ) : h ≤ t.foldl max h := by
  induction t generalizing h with
  | nil => exact le_refl h
  | cons a t ih => exact le_trans (le_max_left h a) (ih (max h a))

lemma foldl_max_mem_le (t : List ℚ) (x : ℚ) :
    ∀ h : ℚ, x ∈ t → x ≤ t.foldl max h := by
  induction t with
  | nil => intro h hx; cases hx
  | cons a t ih =>
      intro h hx
      rcases List.mem_cons.1 hx with rfl | hx'
      · exact le_trans (le_max_right h x) (foldl_max_init_le t (max h x))
      · exact ih (max h a) hx'

lemma foldl_max_mem (t : List ℚ) (h : ℚ) : t.foldl max h ∈ h :: t := by
  induction t generalizing h with
  | nil => exact List.mem_singleton.2 rfl
  | cons a t ih =>
      rw [List.foldl_cons]
      have hmem := ih (max h a)
      rcases List.mem_cons.1 hmem with he | ht
      · rcases max_choice h a with hc | hc
        · rw [he, hc]; exact List.mem_cons_self _ _
        · rw [he, hc]; exact List.mem_cons_of_mem _ (List.mem_cons_self _ _)
      · exact List.mem_cons_of_mem _ (List.mem_cons_of_mem _ ht)

lemma listMin_le (l : List ℚ) (x : ℚ) (hx : x ∈ l) : listMin l ≤ x := by
  cases l with
  | nil => cases hx
  | cons h t =>
      rcases List.mem_cons.1 hx with rfl | hx'
      · exact foldl_min_le_init t x
      · exact foldl_min_le_mem t x h hx'

lemma le_listMax (l : List ℚ) (x : ℚ) (hx : x ∈ l) : x ≤ listMax l := by
  cases l with
  | nil => cases hx
  | cons h t =>
      rcases List.mem_cons.1 hx with rfl | hx'
      · exact foldl_max_init_le t x
      · exact foldl_max_mem_le t x h hx'

lemma listMin_mem (l : List ℚ) (hl : l ≠ []) : listMin l ∈ l := by
  cases l with
  | nil => exact absurd rfl hl
  | cons h t => exact foldl_min_mem t h

lemma listMax_mem (l : List ℚ) (hl : l ≠ []) : listMax l ∈ l := by
  cases l with
  | nil => exact absurd rfl hl
  | cons h t => exact foldl_max_mem t h

/-- C5 (amended).  Whenever the pre-normalisation fractal values are not all
equal (their running minimum is strictly below their running maximum), the
generated heightmap lies in `[0, 1]`, attains both `0` and `1`, and the
generator is deterministic (it is a pure function of the hash and the
size). -/
theorem generate_normalized (nf : ℤ → ℤ → ℚ) (size : ℕ)
    (hlt : listMin (rawHeights nf size) < listMax (rawHeights nf size)) :
    (∀ x ∈ generateProceduralHeightmap nf size, 0 ≤ x ∧ x ≤ 1) ∧
    (0 : ℚ) ∈ generateProceduralHeightmap nf size ∧
    (1 : ℚ) ∈ generateProceduralHeightmap nf size ∧
    generateProceduralHeightmap nf size = generateProceduralHeightmap nf size := by
  set raw := rawHeights nf size with hraw
  have hne : raw ≠ [] := by
    intro h
    rw [h] at hlt
    simp [listMin, listMax] at hlt
  have hpos : 0 < listMax raw - listMin raw := sub_pos.2 hlt
  refine ⟨?_, ?_, ?_, rfl⟩
  · intro x hx
    rcases List.mem_map.1 hx with ⟨h, hh, rfl⟩
    constructor
    · exact div_nonneg (sub_nonneg.2 (listMin_le raw h hh)) (le_of_lt hpos)
    · rw [div_le_one hpos]
      exact sub_le_sub_right (le_listMax raw h hh) _
  · refine List.mem_map.2 ⟨listMin raw, listMin_mem raw hne, ?_⟩
    rw [sub_self, zero_div]
  · refine List.mem_map.2 ⟨listMax raw, listMax_mem raw hne, ?_⟩
    exact div_self (ne_of_gt hpos)

/-- The hash of the source evaluated at the only lattice point reachable for
`size = 1` (namely `(0,0)`, where `sin 0 = 0` makes the hash exactly `0`),
extended by `0` elsewhere. -/
def hashZero : ℤ → ℤ → ℚ := fun _ _ => 0

/-- C5 counterexample.  At `size = 1` the generator divides by
`maxH - minH = 0`: the single raw value equals its own min and max, so the
normalised output is `[0/0] = [0]` (in JavaScript, `NaN`).  The value `1` is
not attained, refuting "for every size ... max = 1 attained". -/
theorem generate_size_one_missing_max :
    generateProceduralHeightmap hashZero 1 = [0] ∧
    (1 : ℚ) ∉ generateProceduralHeightmap hashZero 1 := by
  have hsm : ∀ x y : ℚ, smoothNoiseWith hashZero x y = 0 := by
    intro x y
    simp [smoothNoiseWith, hashZero]
  have hfr : fractalNoise hashZero 0 0 = 0 := by
    simp [fractalNoise, List.range_succ, hsm]
  have hraw : rawHeights hashZero 1 = [0] := by
    simp [rawHeights, List.range_succ, hfr]
  constructor
  · simp [generateProceduralHeightmap, hraw, listMin, listMax]
  · simp [generateProceduralHeightmap, hraw, listMin, listMax]

/-- A concrete hash for the C5 witness: `0` in the third quadrant up to the
origin, `1` elsewhere. -/
def hashStep : ℤ → ℤ → ℚ := fun i j => if i ≤ 0 ∧ j ≤ 0 then 0 else 1

lemma smoothNoiseWith_hashStep_one (x y : ℚ) (hxy : 1 ≤ x ∨ 1 ≤ y) :
    smoothNoiseWith hashStep x y = 1 := by
  have hcorner : ∀ i j : ℤ, (1 ≤ i ∨ 1 ≤ j) → hashStep i j = 1 := by
    intro i j hij
    unfold hashStep
    rcases hij with h | h <;> rw [if_neg (by omega)]
  rcases hxy with h | h
  · have hfl : 1 ≤ ⌊x⌋ := by
      rw [Int.le_floor]; exact_mod_cast h
    simp only [smoothNoiseWith]
    rw [hcorner _ _ (Or.inl hfl), hcorner _ _ (Or.inl (by omega)),
      hcorner _ _ (Or.inl hfl), hcorner _ _ (Or.inl (by omega))]
    ring
  · have hfl : 1 ≤ ⌊y⌋ := by
      rw [Int.le_floor]; exact_mod_cast h
    simp only [smoothNoiseWith]
    rw [hcorner _ _ (Or.inr hfl), hcorner _ _ (Or.inr hfl),
      hcorner _ _ (Or.inr (by omega)), hcorner _ _ (Or.inr (by omega))]
    ring

lemma smoothNoiseWith_hashStep_zero :
    smoothNoiseWith hashStep 0 0 = 0 := by
  norm_num [smoothNoiseWith, hashStep]

/-- Witness for C5 at `size = 2` with the step hash: the raw grid is
`[0, 1, 1, 1]`, whose min is strictly below its max. -/
theorem generate_normalized_witness :
    listMin (rawHeights hashStep 2) < listMax (rawHeights hashStep 2) ∧
    (0 : ℚ) ∈ generateProceduralHeightmap hashStep 2 ∧
    (1 : ℚ) ∈ generateProceduralHeightmap hashStep 2 := by
  have hfr0 : fractalNoise hashStep 0 0 = 0 := by
    simp [fractalNoise, List.range_succ, smoothNoiseWith_hashStep_zero]
  have hfr1 : ∀ x y : ℚ, (1 ≤ x ∨ 1 ≤ y) → (x = 2 ∨ x = 0) → (y = 2 ∨ y = 0) →
      fractalNoise hashStep x y = 1 := by
    intro x y hxy hx hy
    have h1 : smoothNoiseWith hashStep (x * 1) (y * 1) = 1 := by
      apply smoothNoiseWith_hashStep_one
      rcases hxy with h | h
      · left; linarith
      · right; linarith
    have hstep : ∀ q : ℚ, 1 ≤ q → smoothNoiseWith hashStep (x * q) (y * q) = 1 := by
      intro q hq
      apply smoothNoiseWith_hashStep_one
      rcases hxy with h | h
      · left; nlinarith
      · right; nlinarith
    unfold fractalNoise
    rw [List.range_succ, List.range_succ, List.range_succ, List.range_succ,
      List.range_succ, List.range_succ, List.range_zero]
    simp only [List.foldl_append, List.foldl_cons, List.foldl_nil]
    rw [hstep 1 (by norm_num), hstep (1 * (21/10)) (by norm_num),
      hstep (1 * (21/10) * (21/10)) (by norm_num),
      hstep (1 * (21/10) * (21/10) * (21/10)) (by norm_num),
      hstep (1 * (21/10) * (21/10) * (21/10) * (21/10)) (by norm_num),
      hstep (1 * (21/10) * (21/10) * (21/10) * (21/10) * (21/10)) (by norm_num)]
    norm_num
  have hraw : rawHeights hashStep 2 = [0, 1, 1, 1] := by
    unfold rawHeights
    rw [show (2 * 2 : ℕ) = 4 by norm_num]
    rw [List.range_succ, List.range_succ, List.range_succ, List.range_succ,
      List.range_zero]
    simp only [List.nil_append, List.cons_append, List.map_cons, List.map_nil]
    norm_num
    rw [hfr0, hfr1 2 0 (by norm_num) (by norm_num) (by norm_num),
      hfr1 0 2 (by norm_num) (by norm_num) (by norm_num),
      hfr1 2 2 (by norm_num) (by norm_num) (by norm_num)]
    norm_num
  refine ⟨?_, ?_⟩
  · rw [hraw]
    norm_num [listMin, listMax]
  · have := generate_normalized hashStep 2 (by
      rw [hraw]; norm_num [listMin, listMax])
    exact ⟨this.2.1, this.2.2.1⟩

/-- C9 counterexample.  A degenerate configuration — `size = 1 < 2` with an
empty (mismatched) heights array — does NOT abort: the constructor returns a
model. -/
theorem mkTerrainBuilder_degenerate_ok :
    mkTerrainBuilder [] 1 200 14 0 =
      .ok (TerrainBuilder.mk [] 1 200 14 0) ∧
    (TerrainBuilder.mk [] 1 200 14 0).size < 2 := by
  exact ⟨rfl, by decide⟩

/-- C9 (amended).  The `TerrainBuilder` constructor performs no validation:
for every configuration, degenerate or not (grid size < 2, non-positive
world size, heights length ≠ size*size), construction succeeds and produces
a model carrying the given fields verbatim. -/
theorem mkTerrainBuilder_never_fails (heights : List ℚ) (size : ℕ)
    (worldSize heightScale heightOffset : ℚ)
    (hdeg : size < 2 ∨ worldSize ≤ 0 ∨ heights.length ≠ size * size) :
    ∃ tb : TerrainBuilder,
      mkTerrainBuilder heights size worldSize heightScale heightOffset = .ok tb ∧
      tb.heights = heights ∧ tb.size = size ∧ tb.worldSize = worldSize ∧
      tb.heightScale = heightScale ∧ tb.heightOffset = heightOffset :=
  ⟨TerrainBuilder.mk heights size worldSize heightScale heightOffset,
    rfl, rfl, rfl, rfl, rfl, rfl⟩

/-- Witness for C9 (amended) at the degenerate configuration
`size = 0`, `worldSize = -3`, empty heights. -/
theorem mkTerrainBuilder_never_fails_witness :
    ((0 : ℕ) < 2 ∨ (-3 : ℚ) ≤ 0 ∨ ([] : List ℚ).length ≠ 0 * 0) ∧
    ∃ tb : TerrainBuilder, mkTerrainBuilder [] 0 (-3) 14 0 = .ok tb ∧
      tb.heights = [] ∧ tb.size = 0 ∧ tb.worldSize = -3 ∧
      tb.heightScale = 14 ∧ tb.heightOffset = 0 :=
  ⟨Or.inl (by decide),
    mkTerrainBuilder_never_fails [] 0 (-3) 14 0 (Or.inl (by decide))⟩

/- ### Real 3-vectors (three.js `Vector3` operations used by the code) -/

/-- A 3D vector `(x, y, z)` of reals. -/
abbrev Vec3 := ℝ × ℝ × ℝ

namespace Vec3

def add (u v : Vec3) : Vec3 := (u.1 + v.1, u.2.1 + v.2.1, u.2.2 + v.2.2)

def sub (u v : Vec3) : Vec3 := (u.1 - v.1, u.2.1 - v.2.1, u.2.2 - v.2.2)

def smul (c : ℝ) (v : Vec3) : Vec3 := (c * v.1, c * v.2.1, c * v.2.2)

/-- `crossVectors`: the standard cross product, as three.js computes it. -/
def cross (u v : Vec3) : Vec3 :=
  (u.2.1 * v.2.2 - u.2.2 * v.2.1,
    u.2.2 * v.1 - u.1 * v.2.2,
    u.1 * v.2.1 - u.2.1 * v.1)

/-- `lengthSq`. -/
def normSq (v : Vec3) : ℝ := v.1 * v.1 + v.2.1 * v.2.1 + v.2.2 * v.2.2

/-- `length`. -/
noncomputable def len (v : Vec3) : ℝ := Real.sqrt (normSq v)

/-- `normalize`: three.js divides by `length() || 1`, so the zero vector is
mapped to itself; with the convention `x / 0 = 0` the single expression
`(1 / len v) • v` computes exactly that. -/
noncomputable def normalize (v : Vec3) : Vec3 := smul (1 / len v) v

lemma normSq_nonneg (v : Vec3) : 0 ≤ normSq v := by
  unfold normSq
  nlinarith [sq_nonneg v.1, sq_nonneg v.2.1, sq_nonneg v.2.2]

lemma len_nonneg (v : Vec3) : 0 ≤ len v := Real.sqrt_nonneg _

lemma len_pos_of_normSq_pos (v : Vec3) (h : 0 < normSq v) : 0 < len v :=
  Real.sqrt_pos.2 h

lemma len_smul (c : ℝ) (v : Vec3) : len (smul c v) = |c| * len v := by
  unfold len normSq smul
  rw [show c * v.1 * (c * v.1) + c * v.2.1 * (c * v.2.1) + c * v.2.2 * (c * v.2.2)
      = c ^ 2 * (v.1 * v.1 + v.2.1 * v.2.1 + v.2.2 * v.2.2) by ring]
  rw [Real.sqrt_mul (sq_nonneg c), Real.sqrt_sq_eq_abs]

lemma len_normalize (v : Vec3) (h : 0 < normSq v) : len (normalize v) = 1 := by
  have hl : 0 < len v := len_pos_of_normSq_pos v h
  unfold normalize
  rw [len_smul, abs_of_pos (by positivity : (0:ℝ) < 1 / len v)]
  field_simp

lemma len_pos_of_snd_pos (v : Vec3) (h : 0 < v.2.1) : 0 < len v := by
  apply len_pos_of_normSq_pos
  unfold normSq
  nlinarith [sq_nonneg v.1, sq_nonneg v.2.2]

/-- The y-component survives normalisation with its sign. -/
lemma normalize_snd_pos (v : Vec3) (h : 0 < v.2.1) : 0 < (normalize v).2.1 := by
  have hl : 0 < len v := len_pos_of_snd_pos v h
  show 0 < (1 / len v) * v.2.1
  positivity

end Vec3

/- ### Character controller (`src/utils/controller.js`) -/

/-- The keyboard state read by `FPSController.update` (`this.keys`),
one flag per key code the code consults. -/
structure KeyState where
  keyW : Bool := false
  keyS : Bool := false
  keyA : Bool := false
  keyD : Bool := false
  arrowUp : Bool := false
  arrowDown : Bool := false
  arrowLeft : Bool := false
  arrowRight : Bool := false
  shiftLeft : Bool := false
  shiftRight : Bool := false
  space : Bool := false

/-- The controller state fields `update` reads and writes before delegating
to the external collision resolver. -/
structure CtrlState where
  yaw : ℝ
  velY : ℝ
  isGrounded : Bool
  jumpCooldown : ℝ

/-- `this.MOVE_SPEED = 8`. -/
def MOVE_SPEED : ℝ := 8
/-- `this.SPRINT_MULT = 1.8`. -/
def SPRINT_MULT : ℝ := 1.8
/-- `this.JUMP_FORCE = 9`. -/
def JUMP_FORCE : ℝ := 9
/-- `this.GRAVITY = -25`. -/
def GRAVITY : ℝ := -25

/-- `speed = MOVE_SPEED * (sprint ? SPRINT_MULT : 1.0)`. -/
def ctrlSpeed (keys : KeyState) : ℝ :=
  MOVE_SPEED * (if keys.shiftLeft || keys.shiftRight then SPRINT_MULT else 1)

/-- The raw movement vector accumulated by the four `addScaledVector`
calls from the yaw-relative forward/right unit vectors. -/
noncomputable def movRaw (yaw : ℝ) (keys : KeyState) : Vec3 :=
  let fwd : Vec3 := (-Real.sin yaw, 0, -Real.cos yaw)
  let rgt : Vec3 := (Real.cos yaw, 0, -Real.sin yaw)
  let m0 : Vec3 := (0, 0, 0)
  let m1 := if keys.keyW || keys.arrowUp then Vec3.add m0 (Vec3.smul 1 fwd) else m0
  let m2 := if keys.keyS || keys.arrowDown then Vec3.add m1 (Vec3.smul (-1) fwd) else m1
  let m3 := if keys.keyA || keys.arrowLeft then Vec3.add m2 (Vec3.smul (-1) rgt) else m2
  if keys.keyD || keys.arrowRight then Vec3.add m3 (Vec3.smul 1 rgt) else m3

/-- The final horizontal movement-intent vector:
`if (mov.lengthSq() > 0.001) mov.normalize().multiplyScalar(speed)`. -/
noncomputable def movIntent (yaw : ℝ) (keys : KeyState) : Vec3 :=
  let m := movRaw yaw keys
  if Vec3.normSq m > 0.001 then Vec3.smul (ctrlSpeed keys) (Vec3.normalize m) else m

open Classical in
/-- The pure state update performed by one `FPSController.update(dt)` call
(controller.js lines 119–158): the conditional cooldown decrement, the
movement intent, gravity integration, the grounded downward clamp to `-2`,
and the jump branch.  The subsequent collision-resolver calls
(`computeColliderMovement` / `computedMovement` / `computedGrounded`) and the
kinematic-body translation are external engine operations and do not write
`velY`, `jumpCooldown` or the intent again; `isGrounded` is overwritten from
the resolver and is therefore left out of the result. -/
noncomputable def updateCore (st : CtrlState) (keys : KeyState) (dt : ℝ) :
    CtrlState × Vec3 × Vec3 :=
  let cd1 := if st.jumpCooldown > 0 then st.jumpCooldown - dt else st.jumpCooldown
  let mov := movIntent st.yaw keys
  let v1 := st.velY + GRAVITY * dt
  let v2 := if st.isGrounded ∧ v1 < 0 then -2 else v1
  let jump := keys.space ∧ st.isGrounded ∧ cd1 ≤ 0
  let v3 := if jump then JUMP_FORCE else v2
  let cd2 := if jump then 0.4 else cd1
  ({ st with velY := v3, jumpCooldown := cd2 }, mov,
    (mov.1 * dt, v3 * dt, mov.2.2 * dt))

/-- C7.  If at the start of a step the actor is grounded, the jump cooldown
has expired (`≤ 0`) and jump input is pressed, then after that single step
`velY` is exactly `JUMP_FORCE = 9` — the jump assignment overrides the
gravity integration (`GRAVITY = -25`) performed the same frame — and the
cooldown is reset to `0.4`. -/
theorem jump_sets_velocity (st : CtrlState) (keys : KeyState) (dt : ℝ)
    (hg : st.isGrounded = true) (hcd : st.jumpCooldown ≤ 0)
    (hs : keys.space = true) :
    (updateCore st keys dt).1.velY = 9 ∧
    (updateCore st keys dt).1.jumpCooldown = 0.4 := by
  have h1 : ¬ (st.jumpCooldown > 0) := not_lt.2 hcd
  simp only [updateCore, if_neg h1]
  rw [if_pos ⟨hs, hg, hcd⟩, if_pos ⟨hs, hg, hcd⟩]
  exact ⟨rfl, rfl⟩

/-- Witness for C7: grounded actor with `velY = -3`, expired cooldown, jump
held, `dt = 1/60`. -/
theorem jump_sets_velocity_witness :
    ((⟨0, -3, true, 0⟩ : CtrlState).isGrounded = true ∧
      (⟨0, -3, true, 0⟩ : CtrlState).jumpCooldown ≤ 0 ∧
      ({ space := true } : KeyState).space = true) ∧
    (updateCore ⟨0, -3, true, 0⟩ { space := true } (1/60)).1.velY = 9 ∧
    (updateCore ⟨0, -3, true, 0⟩ { space := true } (1/60)).1.jumpCooldown = 0.4 :=
  ⟨⟨rfl, by norm_num, rfl⟩,
    jump_sets_velocity ⟨0, -3, true, 0⟩ { space := true } (1/60)
      rfl (by norm_num) rfl⟩

/-- C8 counterexample.  With `jumpCooldown = 0` (already non-positive), no
jump input and `dt = 1/60`, the cooldown after the step is still `0`, not
`0 - 1/60`: the code decrements only when the cooldown is positive. -/
theorem cooldown_not_decremented_at_zero :
    (updateCore ⟨0, 0, true, 0⟩ {} (1/60)).1.jumpCooldown = 0 ∧
    (0 : ℝ) ≠ 0 - 1/60 := by
  constructor
  · simp only [updateCore]
    norm_num
  · norm_num

/-- C8 (amended).  In a step in which the jump branch cannot fire (jump not
pressed or not grounded), the cooldown is decremented by `dt` when it was
positive and left unchanged when it was already `≤ 0`. -/
theorem cooldown_step_law (st : CtrlState) (keys : KeyState) (dt : ℝ)
    (hnj : ¬(keys.space = true ∧ st.isGrounded = true)) :
    (0 < st.jumpCooldown →
      (updateCore st keys dt).1.jumpCooldown = st.jumpCooldown - dt) ∧
    (st.jumpCooldown ≤ 0 →
      (updateCore st keys dt).1.jumpCooldown = st.jumpCooldown) := by
  have hjump : ∀ c : ℝ, ¬(keys.space = true ∧ st.isGrounded = true ∧ c ≤ 0) :=
    fun c h => hnj ⟨h.1, h.2.1⟩
  constructor
  · intro hpos
    simp only [updateCore, if_pos hpos, if_neg (hjump _)]
  · intro hle
    simp only [updateCore, if_neg (not_lt.2 hle), if_neg (hjump _)]

/-- Witness for C8 (amended): `jumpCooldown = 1/2`, no keys pressed,
`dt = 1/60`. -/
theorem cooldown_step_law_witness :
    (¬(({} : KeyState).space = true ∧
        (⟨0, 0, false, 1/2⟩ : CtrlState).isGrounded = true)) ∧
    (0 < (1/2 : ℝ) →
      (updateCore ⟨0, 0, false, 1/2⟩ {} (1/60)).1.jumpCooldown = 1/2 - 1/60) ∧
    ((1/2 : ℝ) ≤ 0 →
      (updateCore ⟨0, 0, false, 1/2⟩ {} (1/60)).1.jumpCooldown = 1/2) :=
  ⟨by simp, cooldown_step_law ⟨0, 0, false, 1/2⟩ {} (1/60) (by simp)⟩

/-- The net forward/backward coefficient applied to `fwd` by the input
branches. -/
def movP (keys : KeyState) : ℝ :=
  (if keys.keyW || keys.arrowUp then 1 else 0) +
    (if keys.keyS || keys.arrowDown then -1 else 0)

/-- The net right/left coefficient applied to `rgt` by the input branches. -/
def movQ (keys : KeyState) : ℝ :=
  (if keys.keyD || keys.arrowRight then 1 else 0) +
    (if keys.keyA || keys.arrowLeft then -1 else 0)

lemma movRaw_closed (yaw : ℝ) (keys : KeyState) :
    movRaw yaw keys =
      (-(movP keys) * Real.sin yaw + movQ keys * Real.cos yaw, 0,
        -(movP keys) * Real.cos yaw - movQ keys * Real.sin yaw) := by
  unfold movRaw movP movQ
  cases h1 : (keys.keyW || keys.arrowUp) <;>
    cases h2 : (keys.keyS || keys.arrowDown) <;>
      cases h3 : (keys.keyA || keys.arrowLeft) <;>
        cases h4 : (keys.keyD || keys.arrowRight) <;>
          simp [Vec3.add, Vec3.smul, Prod.ext_iff] <;>
            constructor <;> ring

lemma movRaw_normSq (yaw : ℝ) (keys : KeyState) :
    Vec3.normSq (movRaw yaw keys) = movP keys ^ 2 + movQ keys ^ 2 := by
  rw [movRaw_closed]
  simp only [Vec3.normSq]
  have h := Real.sin_sq_add_cos_sq yaw
  linear_combination (movP keys ^ 2 + movQ keys ^ 2) * h

/-- C10.  Every step's horizontal movement-intent vector has magnitude
exactly `0` or exactly the target speed `ctrlSpeed keys`
(`MOVE_SPEED`, times `SPRINT_MULT` when sprint is held): when the key
contributions cancel, the accumulated vector is the zero vector, falls under
the `0.001` squared-length dead-zone and is left at zero; otherwise its
squared length is at least `1`, so it is normalised and scaled to the target
speed.  No other magnitude can occur. -/
theorem movement_intent_magnitude (yaw : ℝ) (keys : KeyState) :
    Vec3.len (movIntent yaw keys) = 0 ∨
    Vec3.len (movIntent yaw keys) = ctrlSpeed keys := by
  have hp : movP keys = -1 ∨ movP keys = 0 ∨ movP keys = 1 := by
    unfold movP; split_ifs <;> norm_num
  have hq : movQ keys = -1 ∨ movQ keys = 0 ∨ movQ keys = 1 := by
    unfold movQ; split_ifs <;> norm_num
  have hspeed : 0 < ctrlSpeed keys := by
    unfold ctrlSpeed MOVE_SPEED SPRINT_MULT; split_ifs <;> norm_num
  by_cases hz : movP keys = 0 ∧ movQ keys = 0
  · left
    have hm : movRaw yaw keys = ((0 : ℝ), (0 : ℝ), (0 : ℝ)) := by
      rw [movRaw_closed, hz.1, hz.2]
      norm_num
    have hns : Vec3.normSq (movRaw yaw keys) = 0 := by
      rw [hm]; simp [Vec3.normSq]
    unfold movIntent
    rw [if_neg (by rw [hns]; norm_num), hm]
    simp [Vec3.len, Vec3.normSq]
  · right
    have hp2 : movP keys ^ 2 = 1 ∨ movP keys = 0 := by
      rcases hp with h | h | h <;> simp [h]
    have hq2 : movQ keys ^ 2 = 1 ∨ movQ keys = 0 := by
      rcases hq with h | h | h <;> simp [h]
    have hge : 1 ≤ Vec3.normSq (movRaw yaw keys) := by
      rw [movRaw_normSq]
      rcases hp2 with h | h <;> rcases hq2 with h' | h'
      · nlinarith [sq_nonneg (movQ keys)]
      · rw [h, h']; norm_num
      · nlinarith [sq_nonneg (movP keys)]
      · exact absurd ⟨h, h'⟩ hz
    unfold movIntent
    rw [if_pos (by norm_num at hge ⊢; linarith)]
    rw [Vec3.len_smul, Vec3.len_normalize _ (by linarith), abs_of_pos hspeed]
    ring

/- ### Mesh builder (`TerrainBuilder.buildMesh`) -/

namespace TerrainBuilder

/-- World-space position of mesh vertex `i` as written by the vertex loop of
`buildMesh` (with `i = row*size + col`, i.e. `row = i / size`,
`col = i % size`): `x = col*cellSize - worldSize/2`, `y = getHeight(row,col)`,
`z = row*cellSize - worldSize/2`.  The rational arithmetic is cast to `ℝ`
where the normal pipeline (square roots) lives. -/
noncomputable def meshPos (tb : TerrainBuilder) (i : ℕ) : Vec3 :=
  ((((i % tb.size : ℕ) : ℚ) * tb.cellSize - tb.worldSize / 2 : ℚ),
    ((tb.getHeight (i / tb.size : ℕ) (i % tb.size : ℕ) : ℚ) : ℝ),
    (((i / tb.size : ℕ) : ℚ) * tb.cellSize - tb.worldSize / 2 : ℚ))

/-- The vertex buffer: one entry per grid point, in the row-major order of
the vertex loop. -/
noncomputable def meshPositions (tb : TerrainBuilder) : List Vec3 :=
  (List.range (tb.size * tb.size)).map tb.meshPos

/-- The two triangles the index loop emits per grid cell `(row, col)`:
`(tl, bl, tr)` and `(tr, bl, br)` with `tl = row*size+col`, `tr = tl+1`,
`bl = (row+1)*size+col`, `br = bl+1`. -/
def meshTriangles (tb : TerrainBuilder) : List (ℕ × ℕ × ℕ) :=
  (List.range (tb.size - 1)).flatMap fun row =>
    (List.range (tb.size - 1)).flatMap fun col =>
      [(row * tb.size + col, (row + 1) * tb.size + col, row * tb.size + col + 1),
        (row * tb.size + col + 1, (row + 1) * tb.size + col,
          (row + 1) * tb.size + col + 1)]

/-- The flat index buffer (three vertex indices per triangle, in emission
order). -/
def meshIndices (tb : TerrainBuilder) : List ℕ :=
  tb.meshTriangles.flatMap fun t => [t.1, t.2.1, t.2.2]

/-- The cross product `(v1 - v0) × (v2 - v0)` computed for triangle
`t = (a, b, c)` by the normal loop. -/
noncomputable def crossOf (tb : TerrainBuilder) (t : ℕ × ℕ × ℕ) : Vec3 :=
  Vec3.cross (Vec3.sub (tb.meshPos t.2.1) (tb.meshPos t.1))
    (Vec3.sub (tb.meshPos t.2.2) (tb.meshPos t.1))

/-- The normalised face normal of a triangle. -/
noncomputable def faceNormal (tb : TerrainBuilder) (t : ℕ × ℕ × ℕ) : Vec3 :=
  Vec3.normalize (tb.crossOf t)

/-- How many of the three index slots of triangle `t` refer to vertex `v`;
the accumulation loop adds the face normal once per slot. -/
def occCount (v : ℕ) (t : ℕ × ℕ × ℕ) : ℕ :=
  (if t.1 = v then 1 else 0) + (if t.2.1 = v then 1 else 0) +
    (if t.2.2 = v then 1 else 0)

/-- The accumulated (pre-normalisation) normal of vertex `v`: the loop over
the index buffer adds each triangle's face normal into the slots of its
three vertices, so per vertex the total is the sum over triangles of
occurrence-count times face normal. -/
noncomputable def accumNormal (tb : TerrainBuilder) (v : ℕ) : Vec3 :=
  (tb.meshTriangles.map fun t => Vec3.smul (occCount v t) (tb.faceNormal t)).sum

/-- The final per-vertex normal written back by the `// Normalize` loop. -/
noncomputable def vertexNormal (tb : TerrainBuilder) (v : ℕ) : Vec3 :=
  Vec3.normalize (tb.accumNormal v)

end TerrainBuilder

lemma vtx_div_eq (r c n : ℕ) (hc : c < n) : (r * n + c) / n = r := by
  have h0 : 0 < n := lt_of_le_of_lt (Nat.zero_le c) hc
  rw [Nat.add_comm, Nat.add_mul_div_right c r h0, Nat.div_eq_of_lt hc]
  omega

lemma vtx_mod_eq (r c n : ℕ) (hc : c < n) : (r * n + c) % n = c := by
  rw [Nat.add_comm, Nat.add_mul_mod_self_right, Nat.mod_eq_of_lt hc]

namespace TerrainBuilder

/-- Vertex-buffer size: one vertex per grid point. -/
lemma meshPositions_length (tb : TerrainBuilder) :
    tb.meshPositions.length = tb.size * tb.size := by
  simp [meshPositions]

/-- Length of a `flatMap` whose pieces all have the same length. -/
lemma length_flatMap_const {A B : Type} (l : List A) (f : A -> List B) (k : Nat)
    (h : forall a, a ∈ l -> (f a).length = k) :
    (l.flatMap f).length = l.length * k := by
  induction l with
  | nil => simp
  | cons a l ih =>
      rw [List.flatMap_cons, List.length_append, h a (List.mem_cons_self a l),
        ih fun b hb => h b (List.mem_cons_of_mem a hb), List.length_cons]
      ring

/-- Triangle-list size: two triangles per cell. -/
lemma meshTriangles_length (tb : TerrainBuilder) :
    tb.meshTriangles.length = (tb.size - 1) * (tb.size - 1) * 2 := by
  unfold meshTriangles
  rw [length_flatMap_const (List.range (tb.size - 1))
    (fun row =>
      (List.range (tb.size - 1)).flatMap fun col =>
        [(row * tb.size + col, (row + 1) * tb.size + col,
            row * tb.size + col + 1),
          (row * tb.size + col + 1, (row + 1) * tb.size + col,
            (row + 1) * tb.size + col + 1)])
    ((tb.size - 1) * 2)
    (fun r _ => by
      rw [length_flatMap_const (List.range (tb.size - 1))
        (fun col =>
          [(r * tb.size + col, (r + 1) * tb.size + col,
              r * tb.size + col + 1),
            (r * tb.size + col + 1, (r + 1) * tb.size + col,
              (r + 1) * tb.size + col + 1)])
        2 (fun c _ => rfl), List.length_range])]
  rw [List.length_range]
  ring

/-- Index-buffer size: `6 (size-1)²` entries. -/
lemma meshIndices_length (tb : TerrainBuilder) :
    tb.meshIndices.length = 6 * ((tb.size - 1) * (tb.size - 1)) := by
  unfold meshIndices
  rw [length_flatMap_const tb.meshTriangles (fun t => [t.1, t.2.1, t.2.2])
    3 (fun t _ => rfl), meshTriangles_length]
  ring

/-- Characterisation of the triangle list. -/
lemma mem_meshTriangles_iff (tb : TerrainBuilder) (t : ℕ × ℕ × ℕ) :
    t ∈ tb.meshTriangles ↔
      ∃ r c, r < tb.size - 1 ∧ c < tb.size - 1 ∧
        (t = (r * tb.size + c, (r + 1) * tb.size + c, r * tb.size + c + 1) ∨
          t = (r * tb.size + c + 1, (r + 1) * tb.size + c,
            (r + 1) * tb.size + c + 1)) := by
  simp only [meshTriangles, List.mem_flatMap, List.mem_range, List.mem_cons,
    List.mem_singleton, List.not_mem_nil, or_false]
  constructor
  · rintro ⟨r, hr, c, hc, h⟩
    exact ⟨r, c, hr, hc, h⟩
  · rintro ⟨r, c, hr, hc, h⟩
    exact ⟨r, hr, c, hc, h⟩

end TerrainBuilder

namespace Vec3

lemma normSq_pos_of_snd_pos (v : Vec3) (h : 0 < v.2.1) : 0 < normSq v := by
  unfold normSq
  nlinarith [sq_nonneg v.1, sq_nonneg v.2.2]

lemma smul_snd (c : ℝ) (v : Vec3) : (smul c v).2.1 = c * v.2.1 := rfl

/-- Normalising a vector that points straight up yields `(0, 1, 0)`. -/
lemma normalize_up (a : ℝ) (ha : 0 < a) :
    normalize ((0 : ℝ), a, (0 : ℝ)) = ((0 : ℝ), 1, (0 : ℝ)) := by
  unfold normalize len normSq smul
  rw [show (0 : ℝ) * 0 + a * a + 0 * 0 = a ^ 2 by ring, Real.sqrt_sq ha.le]
  refine Prod.ext ?_ (Prod.ext ?_ ?_) <;> field_simp

end Vec3

lemma vec3_sum_fst (l : List Vec3) : l.sum.1 = (l.map fun v => v.1).sum := by
  induction l with
  | nil => rfl
  | cons a l ih => simp [List.sum_cons, ih]

lemma vec3_sum_snd (l : List Vec3) : l.sum.2.1 = (l.map fun v => v.2.1).sum := by
  induction l with
  | nil => rfl
  | cons a l ih => simp [List.sum_cons, ih]

lemma vec3_sum_thd (l : List Vec3) : l.sum.2.2 = (l.map fun v => v.2.2).sum := by
  induction l with
  | nil => rfl
  | cons a l ih => simp [List.sum_cons, ih]

namespace TerrainBuilder

lemma cellSize_pos (tb : TerrainBuilder) (hN : 2 ≤ tb.size)
    (hws : 0 < tb.worldSize) : 0 < tb.cellSize := by
  have hsz : (2 : ℚ) ≤ (tb.size : ℚ) := by exact_mod_cast hN
  unfold cellSize
  exact div_pos hws (by linarith)

/-- Evaluating `meshPos` at a row-major vertex index. -/
lemma meshPos_at (tb : TerrainBuilder) (r c : ℕ) (hc : c < tb.size) :
    tb.meshPos (r * tb.size + c) =
      ((((c : ℚ) * tb.cellSize - tb.worldSize / 2 : ℚ) : ℝ),
        ((tb.getHeight (r : ℕ) (c : ℕ) : ℚ) : ℝ),
        (((r : ℚ) * tb.cellSize - tb.worldSize / 2 : ℚ) : ℝ)) := by
  unfold meshPos
  rw [vtx_div_eq r c _ hc, vtx_mod_eq r c _ hc]

/-- The y-component of every triangle's cross product is `cellSize²`,
independently of the height samples. -/
lemma crossOf_snd (tb : TerrainBuilder) (t : ℕ × ℕ × ℕ)
    (ht : t ∈ tb.meshTriangles) :
    (tb.crossOf t).2.1 = ((tb.cellSize : ℚ) : ℝ) ^ 2 := by
  rcases (tb.mem_meshTriangles_iff t).1 ht with ⟨r, c, hr, hc, hT | hT⟩ <;>
    subst hT
  · have hcN : c < tb.size := by omega
    have hc1 : c + 1 < tb.size := by omega
    have hrN : r < tb.size := by omega
    have e3 : r * tb.size + c + 1 = r * tb.size + (c + 1) := by omega
    unfold crossOf Vec3.cross Vec3.sub
    rw [e3, tb.meshPos_at r c hcN, tb.meshPos_at (r + 1) c hcN,
      tb.meshPos_at r (c + 1) hc1]
    push_cast
    ring
  · have hcN : c < tb.size := by omega
    have hc1 : c + 1 < tb.size := by omega
    have e1 : r * tb.size + c + 1 = r * tb.size + (c + 1) := by omega
    have e2 : (r + 1) * tb.size + c + 1 = (r + 1) * tb.size + (c + 1) := by omega
    unfold crossOf Vec3.cross Vec3.sub
    rw [e1, e2, tb.meshPos_at r (c + 1) hc1, tb.meshPos_at (r + 1) c hcN,
      tb.meshPos_at (r + 1) (c + 1) hc1]
    push_cast
    ring

end TerrainBuilder

namespace TerrainBuilder

/-- Every face normal points (strictly) upward once the cell size is
positive. -/
lemma faceNormal_snd_pos (tb : TerrainBuilder) (hN : 2 ≤ tb.size)
    (hws : 0 < tb.worldSize) (t : ℕ × ℕ × ℕ) (ht : t ∈ tb.meshTriangles) :
    0 < (tb.faceNormal t).2.1 := by
  have hcs : 0 < tb.cellSize := tb.cellSize_pos hN hws
  have hcsR : 0 < ((tb.cellSize : ℚ) : ℝ) := by exact_mod_cast hcs
  have hy : 0 < (tb.crossOf t).2.1 := by
    rw [tb.crossOf_snd t ht]
    positivity
  exact Vec3.normalize_snd_pos _ hy

/-- Every vertex of the grid is touched by at least one emitted triangle. -/
lemma vertex_covered (tb : TerrainBuilder) (hN : 2 ≤ tb.size) (v : ℕ)
    (hv : v < tb.size * tb.size) :
    ∃ t ∈ tb.meshTriangles, 1 ≤ occCount v t := by
  set N := tb.size with hNdef
  have hN0 : 0 < N := by omega
  obtain ⟨row, col, hrow, hcol, hsum⟩ :
      ∃ row col, row < N ∧ col < N ∧ row * N + col = v := by
    refine ⟨v / N, v % N, Nat.div_lt_of_lt_mul hv, Nat.mod_lt _ hN0, ?_⟩
    calc v / N * N + v % N = N * (v / N) + v % N := by ring
      _ = v := Nat.div_add_mod v N
  clear hv
  rcases Nat.lt_or_ge row (N - 1) with hr | hr <;>
    rcases Nat.lt_or_ge col (N - 1) with hc | hc
  · -- interior / top-left: tl of T1(row, col)
    refine ⟨(row * N + col, (row + 1) * N + col, row * N + col + 1), ?_, ?_⟩
    · exact (tb.mem_meshTriangles_iff _).2 ⟨row, col, hr, hc, Or.inl rfl⟩
    · unfold occCount
      rw [if_pos (by omega : row * N + col = v)]
      omega
  · -- right edge: col = N-1, tr of T1(row, col-1)
    have hcol1 : col = N - 1 := by omega
    have hc1 : col - 1 < N - 1 := by omega
    refine ⟨(row * N + (col - 1), (row + 1) * N + (col - 1),
      row * N + (col - 1) + 1), ?_, ?_⟩
    · exact (tb.mem_meshTriangles_iff _).2 ⟨row, col - 1, hr, hc1, Or.inl rfl⟩
    · unfold occCount
      rw [if_pos (by omega : row * N + (col - 1) + 1 = v)]
      omega
  · -- bottom edge: row = N-1, bl of T1(row-1, col)
    have hr1 : row - 1 < N - 1 := by omega
    have he : (row - 1 + 1) * N = row * N := by
      have : row - 1 + 1 = row := by omega
      rw [this]
    refine ⟨((row - 1) * N + col, (row - 1 + 1) * N + col,
      (row - 1) * N + col + 1), ?_, ?_⟩
    · exact (tb.mem_meshTriangles_iff _).2 ⟨row - 1, col, hr1, hc, Or.inl rfl⟩
    · unfold occCount
      rw [if_pos (by rw [he]; omega : (row - 1 + 1) * N + col = v)]
      omega
  · -- bottom-right corner: br of T2(row-1, col-1)
    have hr1 : row - 1 < N - 1 := by omega
    have hc1 : col - 1 < N - 1 := by omega
    have he : (row - 1 + 1) * N = row * N := by
      have : row - 1 + 1 = row := by omega
      rw [this]
    refine ⟨((row - 1) * N + (col - 1) + 1, (row - 1 + 1) * N + (col - 1),
      (row - 1 + 1) * N + (col - 1) + 1), ?_, ?_⟩
    · exact (tb.mem_meshTriangles_iff _).2
        ⟨row - 1, col - 1, hr1, hc1, Or.inr rfl⟩
    · unfold occCount
      rw [if_pos (by rw [he]; omega : (row - 1 + 1) * N + (col - 1) + 1 = v)]
      omega

end TerrainBuilder

namespace TerrainBuilder

/-- On a constant height grid, `getHeight` is the same constant everywhere
(the clamped index always lands inside the grid). -/
lemma getHeight_const (tb : TerrainBuilder) (hN : 2 ≤ tb.size) (h : ℚ)
    (hall : ∀ i < tb.size * tb.size, tb.heights.getD i 0 = h) (r c : ℤ) :
    tb.getHeight r c = h * tb.heightScale + tb.heightOffset := by
  have hsz : (2 : ℤ) ≤ (tb.size : ℤ) := by exact_mod_cast hN
  obtain ⟨a, ha0, ha1, haeq⟩ :
      ∃ a : ℤ, 0 ≤ a ∧ a ≤ (tb.size : ℤ) - 1 ∧ tb.clampIndex r = a :=
    ⟨_, by unfold clampIndex; omega, by unfold clampIndex; omega, rfl⟩
  obtain ⟨b, hb0, hb1, hbeq⟩ :
      ∃ b : ℤ, 0 ≤ b ∧ b ≤ (tb.size : ℤ) - 1 ∧ tb.clampIndex c = b :=
    ⟨_, by unfold clampIndex; omega, by unfold clampIndex; omega, rfl⟩
  simp only [getHeight, haeq, hbeq]
  have hidx : (a * tb.size + b).toNat < tb.size * tb.size := by
    have hNnn : (0 : ℤ) ≤ (tb.size : ℤ) := by omega
    have h1 : a * (tb.size : ℤ) ≤ ((tb.size : ℤ) - 1) * tb.size :=
      mul_le_mul_of_nonneg_right ha1 hNnn
    have hle : a * (tb.size : ℤ) + b ≤ (tb.size : ℤ) * tb.size - 1 := by
      nlinarith
    have hnn : (0 : ℤ) ≤ a * (tb.size : ℤ) + b :=
      add_nonneg (mul_nonneg ha0 hNnn) hb0
    have hcast : ((tb.size * tb.size : ℕ) : ℤ) = (tb.size : ℤ) * tb.size := by
      push_cast
      ring
    omega
  rw [hall _ hidx]

/-- On a constant height grid every triangle's cross product points straight
up with magnitude `cellSize²`. -/
lemma crossOf_flat (tb : TerrainBuilder) (hN : 2 ≤ tb.size) (h : ℚ)
    (hall : ∀ i < tb.size * tb.size, tb.heights.getD i 0 = h)
    (t : ℕ × ℕ × ℕ) (ht : t ∈ tb.meshTriangles) :
    tb.crossOf t = ((0 : ℝ), ((tb.cellSize : ℚ) : ℝ) ^ 2, (0 : ℝ)) := by
  rcases (tb.mem_meshTriangles_iff t).1 ht with ⟨r, c, hr, hc, hT | hT⟩ <;>
    subst hT
  · have hcN : c < tb.size := by omega
    have hc1 : c + 1 < tb.size := by omega
    have e3 : r * tb.size + c + 1 = r * tb.size + (c + 1) := by omega
    unfold crossOf Vec3.cross Vec3.sub
    rw [e3, tb.meshPos_at r c hcN, tb.meshPos_at (r + 1) c hcN,
      tb.meshPos_at r (c + 1) hc1]
    simp only [tb.getHeight_const hN h hall]
    refine Prod.ext ?_ (Prod.ext ?_ ?_) <;> push_cast <;> ring
  · have hcN : c < tb.size := by omega
    have hc1 : c + 1 < tb.size := by omega
    have e1 : r * tb.size + c + 1 = r * tb.size + (c + 1) := by omega
    have e2 : (r + 1) * tb.size + c + 1 = (r + 1) * tb.size + (c + 1) := by omega
    unfold crossOf Vec3.cross Vec3.sub
    rw [e1, e2, tb.meshPos_at r (c + 1) hc1, tb.meshPos_at (r + 1) c hcN,
      tb.meshPos_at (r + 1) (c + 1) hc1]
    simp only [tb.getHeight_const hN h hall]
    refine Prod.ext ?_ (Prod.ext ?_ ?_) <;> push_cast <;> ring

/-- On a constant height grid every face normal is exactly `(0, 1, 0)`. -/
lemma faceNormal_flat (tb : TerrainBuilder) (hN : 2 ≤ tb.size)
    (hws : 0 < tb.worldSize) (h : ℚ)
    (hall : ∀ i < tb.size * tb.size, tb.heights.getD i 0 = h)
    (t : ℕ × ℕ × ℕ) (ht : t ∈ tb.meshTriangles) :
    tb.faceNormal t = ((0 : ℝ), 1, (0 : ℝ)) := by
  have hcs : 0 < tb.cellSize := tb.cellSize_pos hN hws
  have hcsR : 0 < ((tb.cellSize : ℚ) : ℝ) := by exact_mod_cast hcs
  unfold faceNormal
  rw [tb.crossOf_flat hN h hall t ht]
  exact Vec3.normalize_up _ (by positivity)

end TerrainBuilder

namespace TerrainBuilder

/-- The accumulated per-vertex normal of every grid vertex has a strictly
positive y-component (so it is never the zero vector). -/
lemma accumNormal_snd_pos (tb : TerrainBuilder) (hN : 2 ≤ tb.size)
    (hws : 0 < tb.worldSize) (v : ℕ) (hv : v < tb.size * tb.size) :
    0 < (tb.accumNormal v).2.1 := by
  unfold accumNormal
  rw [vec3_sum_snd, List.map_map]
  have hmap : ((fun w : Vec3 => w.2.1) ∘
      fun t => Vec3.smul (occCount v t) (tb.faceNormal t)) =
      fun t => (occCount v t : ℝ) * (tb.faceNormal t).2.1 := rfl
  rw [hmap]
  obtain ⟨t0, ht0, hocc⟩ := tb.vertex_covered hN v hv
  have hnn : ∀ x ∈ tb.meshTriangles.map
      (fun t => (occCount v t : ℝ) * (tb.faceNormal t).2.1), 0 ≤ x := by
    intro x hx
    rcases List.mem_map.1 hx with ⟨t, ht, rfl⟩
    exact mul_nonneg (Nat.cast_nonneg _)
      (le_of_lt (tb.faceNormal_snd_pos hN hws t ht))
  have hx0 : (occCount v t0 : ℝ) * (tb.faceNormal t0).2.1 ∈
      tb.meshTriangles.map
        (fun t => (occCount v t : ℝ) * (tb.faceNormal t).2.1) :=
    List.mem_map_of_mem _ ht0
  have hpos : 0 < (occCount v t0 : ℝ) * (tb.faceNormal t0).2.1 :=
    mul_pos (by exact_mod_cast Nat.lt_of_lt_of_le Nat.zero_lt_one hocc)
      (tb.faceNormal_snd_pos hN hws t0 ht0)
  exact lt_of_lt_of_le hpos (List.single_le_sum hnn _ hx0)

/-- The total occurrence count of a grid vertex over all triangles is
positive. -/
lemma occSum_pos (tb : TerrainBuilder) (hN : 2 ≤ tb.size) (v : ℕ)
    (hv : v < tb.size * tb.size) :
    0 < (tb.meshTriangles.map fun t => (occCount v t : ℝ)).sum := by
  obtain ⟨t0, ht0, hocc⟩ := tb.vertex_covered hN v hv
  have hnn : ∀ x ∈ tb.meshTriangles.map (fun t => (occCount v t : ℝ)), 0 ≤ x := by
    intro x hx
    rcases List.mem_map.1 hx with ⟨t, ht, rfl⟩
    exact Nat.cast_nonneg _
  have hx0 : (occCount v t0 : ℝ) ∈
      tb.meshTriangles.map (fun t => (occCount v t : ℝ)) :=
    List.mem_map_of_mem _ ht0
  have hpos : (0 : ℝ) < (occCount v t0 : ℝ) := by
    exact_mod_cast Nat.lt_of_lt_of_le Nat.zero_lt_one hocc
  exact lt_of_lt_of_le hpos (List.single_le_sum hnn _ hx0)

/-- On a constant height grid, every per-vertex normal is exactly
`(0, 1, 0)`. -/
lemma vertexNormal_flat (tb : TerrainBuilder) (hN : 2 ≤ tb.size)
    (hws : 0 < tb.worldSize) (h : ℚ)
    (hall : ∀ i < tb.size * tb.size, tb.heights.getD i 0 = h)
    (v : ℕ) (hv : v < tb.size * tb.size) :
    tb.vertexNormal v = ((0 : ℝ), 1, (0 : ℝ)) := by
  have haccum : tb.accumNormal v =
      ((0 : ℝ), (tb.meshTriangles.map fun t => (occCount v t : ℝ)).sum,
        (0 : ℝ)) := by
    unfold accumNormal
    have hcongr : tb.meshTriangles.map
        (fun t => Vec3.smul (occCount v t) (tb.faceNormal t)) =
        tb.meshTriangles.map
          (fun t => ((0 : ℝ), (occCount v t : ℝ), (0 : ℝ))) := by
      apply List.map_congr_left
      intro t ht
      rw [tb.faceNormal_flat hN hws h hall t ht]
      simp [Vec3.smul]
    rw [hcongr]
    refine Prod.ext ?_ (Prod.ext ?_ ?_)
    · rw [vec3_sum_fst, List.map_map]
      exact List.sum_eq_zero fun x hx => by
        rcases List.mem_map.1 hx with ⟨t, ht, rfl⟩
        rfl
    · rw [vec3_sum_snd, List.map_map]
      rfl
    · rw [vec3_sum_thd, List.map_map]
      exact List.sum_eq_zero fun x hx => by
        rcases List.mem_map.1 hx with ⟨t, ht, rfl⟩
        rfl
  unfold vertexNormal
  rw [haccum]
  exact Vec3.normalize_up _ (tb.occSum_pos hN v hv)

end TerrainBuilder

/-- C6.  For every height grid with `size ≥ 2` and positive world size, the
built mesh has exactly `size²` vertices and `6 (size-1)²` triangle indices;
every per-vertex normal produced by the face-normal accumulation has unit
length; and on a perfectly flat grid (all samples equal) every per-vertex
normal equals `(0, 1, 0)`. -/
theorem mesh_spec (tb : TerrainBuilder) (hN : 2 ≤ tb.size)
    (hws : 0 < tb.worldSize) :
    tb.meshPositions.length = tb.size * tb.size ∧
    tb.meshIndices.length = 6 * ((tb.size - 1) * (tb.size - 1)) ∧
    (∀ v < tb.size * tb.size, Vec3.len (tb.vertexNormal v) = 1) ∧
    (∀ h : ℚ, (∀ i < tb.size * tb.size, tb.heights.getD i 0 = h) →
      ∀ v < tb.size * tb.size, tb.vertexNormal v = ((0 : ℝ), 1, (0 : ℝ))) := by
  refine ⟨tb.meshPositions_length, tb.meshIndices_length, ?_, ?_⟩
  · intro v hv
    unfold TerrainBuilder.vertexNormal
    exact Vec3.len_normalize _
      (Vec3.normSq_pos_of_snd_pos _ (tb.accumNormal_snd_pos hN hws v hv))
  · intro h hall v hv
    exact tb.vertexNormal_flat hN hws h hall v hv

/-- Witness for C6: the flat 2×2 grid with all samples `1/2`,
`worldSize = 4`. -/
theorem mesh_spec_witness :
    (2 ≤ (TerrainBuilder.mk [1/2, 1/2, 1/2, 1/2] 2 4 10 0).size ∧
      0 < (TerrainBuilder.mk [1/2, 1/2, 1/2, 1/2] 2 4 10 0).worldSize) ∧
    (TerrainBuilder.mk [1/2, 1/2, 1/2, 1/2] 2 4 10 0).meshPositions.length =
      2 * 2 ∧
    (TerrainBuilder.mk [1/2, 1/2, 1/2, 1/2] 2 4 10 0).meshIndices.length =
      6 * ((2 - 1) * (2 - 1)) :=
  ⟨⟨by decide, by norm_num⟩,
    (mesh_spec (TerrainBuilder.mk [1/2, 1/2, 1/2, 1/2] 2 4 10 0)
      (by decide) (by norm_num)).1,
    (mesh_spec (TerrainBuilder.mk [1/2, 1/2, 1/2, 1/2] 2 4 10 0)
      (by decide) (by norm_num)).2.1⟩
